/-
Verification of the to-do list state machine and persistence adapter of
the `to-do-list-website-2` repository.

The Task Store lives in `src/app/components/TodoList.tsx`:
  * `tasksReducer` is the pure transition function of the store;
  * `handleAddTask` trims the input and rejects empty text before an ADD;
  * the `useReducer` initializer and a `useEffect` implement the inline
    load/save paths through `localStorage` with `JSON.parse`/`JSON.stringify`.
The generic Persistence Adapter lives in `src/app/hooks/useLocalStorage.ts`.

Embedding conventions:
  * `crypto.randomUUID()` is an external nondeterministic source; its result
    is passed to the reducer as the explicit `freshId` argument, and the
    collision-freedom of the generator is an explicit hypothesis where a
    claim needs it.
  * browser storage is modelled by its observable interface: `getItem`
    results are an `Except Unit (Option String)` (an exception, a missing
    key, or a stored string), `setItem` outcomes by whether the write threw.
  * `JSON.stringify` on a task array is modelled character-exactly,
    including string escaping; `JSON.parse` (composed with the `as Task[]`
    cast) is modelled as a parser for the task-array grammar.  The model
    parser accepts the canonical (whitespace-free) token forms, which
    include every string the save path can emit.
-/
import Mathlib

set_option maxHeartbeats 1000000

namespace Todo

/-- A task record, from `@/lib/interface` as used by `TodoList.tsx`:
`{ id: string; text: string; completed: boolean }`. -/
structure Task where
  id : String
  text : String
  completed : Bool
deriving DecidableEq, Repr

/-- The action union type of `TodoList.tsx` (lines 22–26).  The extra
`unknown` constructor stands for any action whose `type` tag is none of the
four known tags: it is the input on which the `switch` falls through to its
`default` branch. -/
inductive Action where
  | add (text : String)
  | toggle (id : String)
  | delete (id : String)
  | clearCompleted
  | unknown
deriving DecidableEq, Repr

/-- `tasksReducer` of `TodoList.tsx` (lines 28–46).  `freshId` is the value
returned by the `crypto.randomUUID()` call in the ADD branch. -/
def tasksReducer (freshId : String) (state : List Task) (action : Action) : List Task :=
  match action with
  | .add text => state ++ [{ id := freshId, text := text, completed := false }]
  | .toggle i => state.map fun t => if t.id = i then { t with completed := !t.completed } else t
  | .delete i => state.filter fun t => t.id != i
  | .clearCompleted => state.filter fun t => !t.completed
  | .unknown => state

/-- Model of JavaScript `String.prototype.trim`: strip whitespace from both
ends of the string. -/
def jsTrim (s : String) : String :=
  ⟨((s.data.dropWhile Char.isWhitespace).reverse.dropWhile Char.isWhitespace).reverse⟩

/-- `handleAddTask` of `TodoList.tsx` (lines 135–145): trim the draft text;
if the result is empty do nothing, otherwise dispatch ADD with the trimmed
text and clear the draft.  Returns the new task list and the new draft. -/
def handleAddTask (freshId : String) (newTaskText : String) (tasks : List Task) :
    List Task × String :=
  let text := jsTrim newTaskText
  if text = "" then (tasks, newTaskText)
  else (tasksReducer freshId tasks (.add text), "")

/-- Lowercase hexadecimal digit for `n < 16`, as emitted by `JSON.stringify`
in `\u00XX` escapes. -/
def hexDigit (n : Nat) : Char :=
  if n < 10 then Char.ofNat (48 + n) else Char.ofNat (87 + n)

/-- The escaping `JSON.stringify` applies to one character of a string:
quote and backslash are backslash-escaped, the five control characters with
short forms use them, the remaining control characters become `\u00XX`, and
every other character is emitted verbatim. -/
def escapeChar (c : Char) : List Char :=
  if c = '"' then ['\\', '"']
  else if c = '\\' then ['\\', '\\']
  else if c = '\x08' then ['\\', 'b']
  else if c = '\x0c' then ['\\', 'f']
  else if c = '\n' then ['\\', 'n']
  else if c = '\r' then ['\\', 'r']
  else if c = '\t' then ['\\', 't']
  else if c.toNat < 32 then
    ['\\', 'u', '0', '0', hexDigit (c.toNat / 16), hexDigit (c.toNat % 16)]
  else [c]

/-- Escape every character of a string body. -/
def escapeString (s : List Char) : List Char := s.flatMap escapeChar

/-- `JSON.stringify` of a string: a quoted, escaped body. -/
def renderString (s : String) : List Char := '"' :: (escapeString s.data ++ ['"'])

/-- `JSON.stringify` of one task object: keys in the insertion order of the
object literal built by the reducer, `id` then `text` then `completed`. -/
def renderTask (t : Task) : List Char :=
  '\x7b' :: (renderString "id" ++ ':' :: renderString t.id
    ++ ',' :: renderString "text" ++ ':' :: renderString t.text
    ++ ',' :: renderString "completed"
    ++ ':' :: (if t.completed then ['t', 'r', 'u', 'e'] else ['f', 'a', 'l', 's', 'e'])
    ++ ['\x7d'])

/-- Comma-separated rendering of the array elements. -/
def renderTasksSep : List Task → List Char
  | [] => []
  | [t] => renderTask t
  | t :: ts => renderTask t ++ ',' :: renderTasksSep ts

/-- `JSON.stringify(tasks)` as performed by the save paths
(`TodoList.tsx` line 123 and `useLocalStorage.ts` line 43). -/
def stringifyTasks (L : List Task) : String :=
  ⟨'[' :: (renderTasksSep L ++ [']'])⟩

/-- One hexadecimal digit of a `\uXXXX` escape. -/
def parseHexDigit (c : Char) : Option Nat :=
  if '0' ≤ c ∧ c ≤ '9' then some (c.toNat - 48)
  else if 'a' ≤ c ∧ c ≤ 'f' then some (c.toNat - 87)
  else if 'A' ≤ c ∧ c ≤ 'F' then some (c.toNat - 55)
  else none

/-- JSON string-body parsing, entered after the opening quote: returns the
decoded characters and the input after the closing quote.  Raw control
characters are rejected, escapes are decoded; a `\uXXXX` escape is accepted
when it denotes a Unicode scalar value (the model does not combine
surrogate pairs, which the save path never emits). -/
def parseStringBody : List Char → Option (List Char × List Char)
  | [] => none
  | c :: rest =>
    if c = '"' then some ([], rest)
    else if c = '\\' then
      match rest with
      | [] => none
      | e :: rest2 =>
        if e = '"' ∨ e = '\\' ∨ e = '/' then
          (fun p => (e :: p.1, p.2)) <$> parseStringBody rest2
        else if e = 'b' then (fun p => ('\x08' :: p.1, p.2)) <$> parseStringBody rest2
        else if e = 'f' then (fun p => ('\x0c' :: p.1, p.2)) <$> parseStringBody rest2
        else if e = 'n' then (fun p => ('\n' :: p.1, p.2)) <$> parseStringBody rest2
        else if e = 'r' then (fun p => ('\r' :: p.1, p.2)) <$> parseStringBody rest2
        else if e = 't' then (fun p => ('\t' :: p.1, p.2)) <$> parseStringBody rest2
        else if e = 'u' then
          match rest2 with
          | h1 :: h2 :: h3 :: h4 :: rest3 =>
            match parseHexDigit h1, parseHexDigit h2, parseHexDigit h3, parseHexDigit h4 with
            | some a, some b, some c2, some d =>
              let n := ((a * 16 + b) * 16 + c2) * 16 + d
              if n.isValidChar then
                (fun p => (Char.ofNat n :: p.1, p.2)) <$> parseStringBody rest3
              else none
            | _, _, _, _ => none
          | _ => none
        else none
    else if c.toNat < 32 then none
    else (fun p => (c :: p.1, p.2)) <$> parseStringBody rest

/-- Consume an expected literal prefix of the input. -/
def dropChars : List Char → List Char → Option (List Char)
  | [], rest => some rest
  | _ :: _, [] => none
  | p :: ps, c :: rest => if c = p then dropChars ps rest else none

/-- Parse one task object in the canonical serialized form. -/
def parseTask (cs : List Char) : Option (Task × List Char) := do
  let cs1 ← dropChars ('\x7b' :: (renderString "id" ++ [':', '"'])) cs
  let (idChars, cs2) ← parseStringBody cs1
  let cs3 ← dropChars (',' :: (renderString "text" ++ [':', '"'])) cs2
  let (textChars, cs4) ← parseStringBody cs3
  let cs5 ← dropChars (',' :: (renderString "completed" ++ [':'])) cs4
  match cs5 with
  | 't' :: 'r' :: 'u' :: 'e' :: '\x7d' :: rest =>
    some (⟨⟨idChars⟩, ⟨textChars⟩, true⟩, rest)
  | 'f' :: 'a' :: 'l' :: 's' :: 'e' :: '\x7d' :: rest =>
    some (⟨⟨idChars⟩, ⟨textChars⟩, false⟩, rest)
  | _ => none

/-- Parse one or more comma-separated task objects followed by the closing
bracket.  The fuel argument bounds the number of elements; each element
consumes at least one character, so the input length is always enough. -/
def parseTasksFrom : Nat → List Char → Option (List Task × List Char)
  | 0, _ => none
  | fuel + 1, cs => do
    let (t, cs') ← parseTask cs
    match cs' with
    | ',' :: cs'' => do
      let (ts, rest) ← parseTasksFrom fuel cs''
      some (t :: ts, rest)
    | ']' :: rest => some ([t], rest)
    | _ => none

/-- `JSON.parse` composed with the `as Task[]` cast of the load paths,
modelled as a parser for the task-array grammar in canonical token form
(which covers everything the save path emits).  A stored value that real
`JSON.parse` would accept but that is not a task array is cast unchecked by
the source; the model sends it to the failure path instead, which the save
path never produces. -/
def parseTasks (s : String) : Option (List Task) :=
  match s.data with
  | '[' :: cs =>
    if cs = [']'] then some []
    else
      match parseTasksFrom cs.length cs with
      | some (ts, []) => some ts
      | _ => none
  | _ => none

/-- Result of the load path: the value handed to the caller and whether a
failure was reported on the logging side channel (`console.error`). -/
structure LoadOutcome (T : Type) where
  value : T
  logged : Bool
deriving DecidableEq, Repr

/-- The load path of `useLocalStorage.ts` (lines 15–29).  `isClient` is
`typeof window !== "undefined"`; `getItem` is the outcome of
`window.localStorage.getItem(key)` (an exception, `null`, or a string).
The `item ? ... : initialValue` test is falsy on the empty string, hence
the explicit guard.  A parse failure (a `JSON.parse` exception) lands in
the `catch`, which logs and returns the initial value. -/
def loadStored {T : Type} (isClient : Bool) (getItem : Except Unit (Option String))
    (parse : String → Option T) (initialValue : T) : LoadOutcome T :=
  if !isClient then ⟨initialValue, false⟩
  else
    match getItem with
    | .error _ => ⟨initialValue, true⟩
    | .ok none => ⟨initialValue, false⟩
    | .ok (some item) =>
      if item = "" then ⟨initialValue, false⟩
      else
        match parse item with
        | some v => ⟨v, false⟩
        | none => ⟨initialValue, true⟩

/-- Result of the save path: the in-memory value after the effect, the
string written to storage if the write succeeded, and whether a failure
was logged. -/
structure SaveOutcome (T : Type) where
  value : T
  written : Option String
  logged : Bool
deriving DecidableEq, Repr

/-- The save path of `useLocalStorage.ts` (lines 32–48): outside the client
it does nothing; otherwise it serializes the current value and writes it,
logging and swallowing a thrown write error.  `writeOk` is whether
`localStorage.setItem` succeeded.  The `instanceof Function` test on the
stored value is vacuous for the data values stored here, so the serialized
value is the current value itself.  The effect never touches the in-memory
state in either branch. -/
def saveStored {T : Type} (isClient : Bool) (writeOk : Bool) (serialize : T → String)
    (storedValue : T) : SaveOutcome T :=
  if !isClient then ⟨storedValue, none, false⟩
  else if writeOk then ⟨storedValue, some (serialize storedValue), false⟩
  else ⟨storedValue, none, true⟩

/-- The `useReducer` initializer of `TodoList.tsx` (lines 105–115): inside a
browser, read the raw string under the `"tasks"` key and parse it, falling
back to `[]` when the window is absent, the key is unset or empty, reading
throws, or parsing throws.  This inline path swallows errors without
logging. -/
def todoInit (isWindowDefined : Bool) (raw : Except Unit (Option String)) : List Task :=
  if isWindowDefined then
    match raw with
    | .error _ => []
    | .ok none => []
    | .ok (some s) =>
      if s = "" then []
      else
        match parseTasks s with
        | some l => l
        | none => []
  else []

/-! ### Basic facts about the reducer -/

/-- A deleted id never survives filtering; and filtering for an id that is
absent changes nothing. -/
theorem filter_ne_of_not_mem (i : String) :
    ∀ L : List Task, i ∉ L.map Task.id → L.filter (fun t => t.id != i) = L := by
  intro L h
  induction L with
  | nil => rfl
  | cons a L ih =>
    simp only [List.map_cons, List.mem_cons, not_or] at h
    simp [List.filter_cons, bne_iff_ne, Ne.symm h.1, ih h.2]

/-- Toggling preserves the sequence of ids. -/
theorem toggle_map_id (freshId i : String) (L : List Task) :
    (tasksReducer freshId L (.toggle i)).map Task.id = L.map Task.id := by
  induction L with
  | nil => rfl
  | cons a L ih =>
    simp only [tasksReducer, List.map_cons] at ih ⊢
    rw [ih]
    by_cases h : a.id = i <;> simp [h]

/-- Toggling the same id twice restores every element. -/
theorem toggle_toggle (freshId i : String) (L : List Task) :
    tasksReducer freshId (tasksReducer freshId L (.toggle i)) (.toggle i) = L := by
  induction L with
  | nil => rfl
  | cons a L ih =>
    obtain ⟨aid, atext, ac⟩ := a
    simp only [tasksReducer, List.map_cons] at ih ⊢
    rw [ih]
    by_cases h : aid = i <;> simp [h]

/-- DELETE is by definition the filter keeping the other ids. -/
theorem delete_eq_filter (freshId i : String) (L : List Task) :
    tasksReducer freshId L (.delete i) = L.filter (fun t => t.id != i) := rfl

/-- The deleted id does not occur among the ids of the filtered list. -/
theorem not_mem_map_filter (i : String) (L : List Task) :
    i ∉ (L.filter (fun t => t.id != i)).map Task.id := by
  intro h
  rcases List.mem_map.mp h with ⟨t, ht, hti⟩
  have := (List.mem_filter.mp ht).2
  rw [hti] at this
  simp at this

/-- With pairwise-distinct ids, deleting a present id removes exactly one
element. -/
theorem length_filter_of_nodup (i : String) :
    ∀ L : List Task, (L.map Task.id).Nodup → i ∈ L.map Task.id →
      (L.filter (fun t => t.id != i)).length = L.length - 1 := by
  intro L
  induction L with
  | nil => intro _ h; simp at h
  | cons a L ih =>
    intro hnd hmem
    simp only [List.map_cons, List.nodup_cons] at hnd
    obtain ⟨hna, hndL⟩ := hnd
    rcases List.mem_cons.mp hmem with h | h
    · have hi : i ∉ L.map Task.id := h ▸ hna
      have hfa : (a.id != i) = false := by simp [← h]
      simp only [List.filter_cons, hfa, Bool.false_eq_true, if_false,
        filter_ne_of_not_mem i L hi, List.length_cons]
      omega
    · have hne : a.id ≠ i := fun hcontra => hna (hcontra ▸ h)
      have hpos : 0 < L.length := by
        cases L with
        | nil => simp at h
        | cons b M => simp
      have hfa : (a.id != i) = true := by simp [bne_iff_ne, hne]
      simp only [List.filter_cons, hfa, if_true, List.length_cons, ih hndL h]
      omega

/-! ### Round-trip of the JSON model -/

/-- Decoding inverts `hexDigit` on a digit value. -/
theorem parseHexDigit_hexDigit : ∀ n < 16, parseHexDigit (hexDigit n) = some n := by
  decide

/-- String bodies parse back to the characters they encode. -/
theorem parseStringBody_escape (s : List Char) : ∀ rest : List Char,
    parseStringBody (escapeString s ++ '"' :: rest) = some (s, rest) := by
  induction s with
  | nil =>
    intro rest
    simp only [escapeString, List.flatMap_nil, List.nil_append]
    rw [parseStringBody.eq_def]
    simp
  | cons c s ih =>
    intro rest
    simp only [escapeString, List.flatMap_cons, List.append_assoc]
    have ih' : parseStringBody (s.flatMap escapeChar ++ '"' :: rest) = some (s, rest) := by
      simpa [escapeString] using ih rest
    by_cases h1 : c = '"'
    · subst h1
      rw [show escapeChar '"' = ['\\', '"'] from rfl]
      simp only [List.cons_append, List.nil_append]
      rw [parseStringBody.eq_def]
      simp [ih']
    · by_cases h2 : c = '\\'
      · subst h2
        rw [show escapeChar '\\' = ['\\', '\\'] from rfl]
        simp only [List.cons_append, List.nil_append]
        rw [parseStringBody.eq_def]
        simp [ih']
      · by_cases h3 : c = '\x08'
        · subst h3
          rw [show escapeChar '\x08' = ['\\', 'b'] from rfl]
          simp only [List.cons_append, List.nil_append]
          rw [parseStringBody.eq_def]
          simp [ih']
        · by_cases h4 : c = '\x0c'
          · subst h4
            rw [show escapeChar '\x0c' = ['\\', 'f'] from rfl]
            simp only [List.cons_append, List.nil_append]
            rw [parseStringBody.eq_def]
            simp [ih']
          · by_cases h5 : c = '\n'
            · subst h5
              rw [show escapeChar '\n' = ['\\', 'n'] from rfl]
              simp only [List.cons_append, List.nil_append]
              rw [parseStringBody.eq_def]
              simp [ih']
            · by_cases h6 : c = '\r'
              · subst h6
                rw [show escapeChar '\r' = ['\\', 'r'] from rfl]
                simp only [List.cons_append, List.nil_append]
                rw [parseStringBody.eq_def]
                simp [ih']
              · by_cases h7 : c = '\t'
                · subst h7
                  rw [show escapeChar '\t' = ['\\', 't'] from rfl]
                  simp only [List.cons_append, List.nil_append]
                  rw [parseStringBody.eq_def]
                  simp [ih']
                · by_cases h8 : c.toNat < 32
                  · have e1 : escapeChar c = ['\\', 'u', '0', '0',
                        hexDigit (c.toNat / 16), hexDigit (c.toNat % 16)] := by
                      simp [escapeChar, h1, h2, h3, h4, h5, h6, h7, h8]
                    have hd1 : parseHexDigit (hexDigit (c.toNat / 16)) =
                        some (c.toNat / 16) := parseHexDigit_hexDigit _ (by omega)
                    have hd2 : parseHexDigit (hexDigit (c.toNat % 16)) =
                        some (c.toNat % 16) := parseHexDigit_hexDigit _ (by omega)
                    rw [e1]
                    simp only [List.cons_append, List.nil_append]
                    rw [parseStringBody.eq_def]
                    simp only [hd1, hd2]
                    simp only [parseHexDigit]
                    simp [ih']
                    refine ⟨Or.inl (by omega), ?_⟩
                    rw [show c.toNat / 16 * 16 + c.toNat % 16 = c.toNat by omega,
                      Char.ofNat_toNat]
                  · have e1 : escapeChar c = [c] := by
                      simp [escapeChar, h1, h2, h3, h4, h5, h6, h7, h8]
                    rw [e1]
                    simp only [List.cons_append, List.nil_append]
                    rw [parseStringBody.eq_def]
                    simp [h1, h2, h8, ih']

/-- Consuming a literal prefix succeeds on that prefix. -/
theorem dropChars_append (p : List Char) : ∀ rest : List Char,
    dropChars p (p ++ rest) = some rest := by
  induction p with
  | nil => intro rest; rfl
  | cons c p ih => intro rest; simp [dropChars, ih]

/-- One serialized task parses back to itself. -/
theorem parseTask_renderTask (t : Task) (rest : List Char) :
    parseTask (renderTask t ++ rest) = some (t, rest) := by
  obtain ⟨tid, ttext, tc⟩ := t
  cases tc <;>
    simp [parseTask, renderTask, renderString, dropChars, parseStringBody_escape,
      List.append_assoc]

/-- A serialized task is at least one character long. -/
theorem renderTask_length_pos (t : Task) : 1 ≤ (renderTask t).length := by
  simp [renderTask]

/-- The length of the serialized array body dominates the number of tasks. -/
theorem length_le_renderTasksSep : ∀ L : List Task,
    L.length ≤ (renderTasksSep L).length + 1 := by
  intro L
  induction L with
  | nil => simp [renderTasksSep]
  | cons t ts ih =>
    cases ts with
    | nil =>
      have := renderTask_length_pos t
      simp only [renderTasksSep, List.length_cons, List.length_nil]
      omega
    | cons t2 ts2 =>
      have h1 := renderTask_length_pos t
      simp only [renderTasksSep, List.length_cons, List.length_append] at ih ⊢
      omega

/-- The serialized elements of a non-empty list parse back to the list,
given enough fuel. -/
theorem parseTasksFrom_render : ∀ (L : List Task) (fuel : Nat), L ≠ [] →
    L.length ≤ fuel → ∀ rest : List Char,
    parseTasksFrom fuel (renderTasksSep L ++ ']' :: rest) = some (L, rest) := by
  intro L
  induction L with
  | nil => intro fuel h; exact absurd rfl h
  | cons t ts ih =>
    intro fuel _ hfuel rest
    obtain ⟨f, rfl⟩ : ∃ f, fuel = f + 1 := ⟨fuel - 1, by simp at hfuel; omega⟩
    cases ts with
    | nil =>
      simp [renderTasksSep, parseTasksFrom, parseTask_renderTask]
    | cons t2 ts2 =>
      have hrec := ih f (by simp) (by simp at hfuel ⊢; omega) rest
      simp only [renderTasksSep, List.append_assoc, List.cons_append, parseTasksFrom,
        parseTask_renderTask, Option.bind_eq_bind, Option.some_bind]
      rw [hrec]
      rfl

/-- The full round trip: parsing the serialized task list recovers it. -/
theorem parseTasks_stringifyTasks (L : List Task) :
    parseTasks (stringifyTasks L) = some L := by
  cases L with
  | nil => decide
  | cons t ts =>
    have hne : renderTasksSep (t :: ts) ++ [']'] ≠ [']'] := by
      intro h
      have hlen := congrArg List.length h
      have h1 := renderTask_length_pos t
      cases ts <;>
        simp only [renderTasksSep, List.length_append, List.length_cons,
          List.length_nil] at hlen <;> omega
    have hfuel : (t :: ts).length ≤ (renderTasksSep (t :: ts) ++ [']']).length := by
      have := length_le_renderTasksSep (t :: ts)
      simp only [List.length_append, List.length_cons, List.length_nil] at this ⊢
      omega
    have hparse := parseTasksFrom_render (t :: ts)
      ((renderTasksSep (t :: ts) ++ [']']).length) (by simp) hfuel []
    simp only [stringifyTasks, parseTasks, hne, if_false]
    rw [show renderTasksSep (t :: ts) ++ [']'] = renderTasksSep (t :: ts) ++ ']' :: [] from
      rfl] at hparse ⊢
    rw [hparse]

/-! ### The claims -/

/-- Claim C1: for every task list `L` and every non-empty (after trimming)
text `t`, the ADD transition yields a list of length `len(L) + 1` whose
first `len(L)` elements equal `L` and whose last element has
`completed = false`, `text = t`, and an id not present in `L`.  The id is
the `crypto.randomUUID()` result, assumed fresh. -/
theorem claim_C1 (freshId t : String) (L : List Task)
    (hfresh : freshId ∉ L.map Task.id) (ht : jsTrim t ≠ "") :
    (tasksReducer freshId L (.add t)).length = L.length + 1 ∧
    (tasksReducer freshId L (.add t)).take L.length = L ∧
    (tasksReducer freshId L (.add t)).getLast? = some ⟨freshId, t, false⟩ ∧
    ∀ u ∈ L, u.id ≠ freshId := by
  refine ⟨by simp [tasksReducer], List.take_left L _, List.getLast?_concat L, ?_⟩
  intro u hu hcontra
  exact hfresh (hcontra ▸ List.mem_map_of_mem Task.id hu)

/-- Witness for C1 at a concrete list and text. -/
theorem claim_C1_witness :
    (tasksReducer "id-1" ([⟨"a", "x", false⟩] : List Task) (.add "buy milk")).length =
      ([⟨"a", "x", false⟩] : List Task).length + 1 ∧
    (tasksReducer "id-1" ([⟨"a", "x", false⟩] : List Task) (.add "buy milk")).take
      ([⟨"a", "x", false⟩] : List Task).length = [⟨"a", "x", false⟩] ∧
    (tasksReducer "id-1" ([⟨"a", "x", false⟩] : List Task) (.add "buy milk")).getLast? =
      some ⟨"id-1", "buy milk", false⟩ ∧
    ∀ u ∈ ([⟨"a", "x", false⟩] : List Task), u.id ≠ "id-1" :=
  claim_C1 "id-1" "buy milk" [⟨"a", "x", false⟩] (by decide) (by decide)

/-- Claim C2: for an id present in `L`, TOGGLE preserves length and order,
keeps the id and text of every task, negates `completed` exactly on the
tasks whose id matches, and applying TOGGLE twice with the same id returns
the original list. -/
theorem claim_C2 (freshId i : String) (L : List Task) (hmem : i ∈ L.map Task.id) :
    (tasksReducer freshId L (.toggle i)).length = L.length ∧
    (∀ j : Nat, (tasksReducer freshId L (.toggle i))[j]? =
      (L[j]?).map fun t => if t.id = i then ⟨t.id, t.text, !t.completed⟩ else t) ∧
    tasksReducer freshId (tasksReducer freshId L (.toggle i)) (.toggle i) = L := by
  refine ⟨by simp [tasksReducer], ?_, toggle_toggle freshId i L⟩
  intro j
  simp only [tasksReducer, List.getElem?_map]

/-- Witness for C2 at a concrete list and id. -/
theorem claim_C2_witness :
    (tasksReducer "z" ([⟨"a", "x", false⟩, ⟨"b", "y", true⟩] : List Task)
        (.toggle "a")).length = ([⟨"a", "x", false⟩, ⟨"b", "y", true⟩] : List Task).length ∧
    (∀ j : Nat, (tasksReducer "z" ([⟨"a", "x", false⟩, ⟨"b", "y", true⟩] : List Task)
        (.toggle "a"))[j]? =
      ((([⟨"a", "x", false⟩, ⟨"b", "y", true⟩] : List Task))[j]?).map
        fun t => if t.id = "a" then ⟨t.id, t.text, !t.completed⟩ else t) ∧
    tasksReducer "z"
      (tasksReducer "z" ([⟨"a", "x", false⟩, ⟨"b", "y", true⟩] : List Task) (.toggle "a"))
      (.toggle "a") = [⟨"a", "x", false⟩, ⟨"b", "y", true⟩] :=
  claim_C2 "z" "a" [⟨"a", "x", false⟩, ⟨"b", "y", true⟩] (by decide)

/-- Counterexample to Claim C3 as stated: on a list in which two tasks share
the id `"a"` (such lists can be loaded from storage), DELETE removes both,
so the length drops by two, not one. -/
theorem claim_C3_counterexample :
    ("a" ∈ ([⟨"a", "x", false⟩, ⟨"a", "y", true⟩] : List Task).map Task.id) ∧
    (tasksReducer "z" ([⟨"a", "x", false⟩, ⟨"a", "y", true⟩] : List Task)
        (.delete "a")).length ≠
      ([⟨"a", "x", false⟩, ⟨"a", "y", true⟩] : List Task).length - 1 := by
  decide

/-- Claim C3, amended: on a list with pairwise-distinct ids, DELETE yields
length `len(L) - 1` when the id is present and leaves the list unchanged
when it is absent; in both cases no task with the deleted id remains. -/
theorem claim_C3 (freshId i : String) (L : List Task)
    (hnd : (L.map Task.id).Nodup) :
    (i ∈ L.map Task.id → (tasksReducer freshId L (.delete i)).length = L.length - 1) ∧
    (i ∉ L.map Task.id → tasksReducer freshId L (.delete i) = L) ∧
    i ∉ (tasksReducer freshId L (.delete i)).map Task.id := by
  rw [delete_eq_filter]
  exact ⟨length_filter_of_nodup i L hnd, filter_ne_of_not_mem i L, not_mem_map_filter i L⟩

/-- Witness for C3 (amended) at a concrete distinct-id list. -/
theorem claim_C3_witness :
    ("a" ∈ ([⟨"a", "x", false⟩, ⟨"b", "y", true⟩] : List Task).map Task.id →
      (tasksReducer "z" ([⟨"a", "x", false⟩, ⟨"b", "y", true⟩] : List Task)
        (.delete "a")).length =
        ([⟨"a", "x", false⟩, ⟨"b", "y", true⟩] : List Task).length - 1) ∧
    ("a" ∉ ([⟨"a", "x", false⟩, ⟨"b", "y", true⟩] : List Task).map Task.id →
      tasksReducer "z" ([⟨"a", "x", false⟩, ⟨"b", "y", true⟩] : List Task)
        (.delete "a") = [⟨"a", "x", false⟩, ⟨"b", "y", true⟩]) ∧
    "a" ∉ (tasksReducer "z" ([⟨"a", "x", false⟩, ⟨"b", "y", true⟩] : List Task)
        (.delete "a")).map Task.id :=
  claim_C3 "z" "a" [⟨"a", "x", false⟩, ⟨"b", "y", true⟩] (by decide)

/-- Claim C4: CLEAR_COMPLETED keeps exactly the tasks with
`completed = false`, in the original relative order (it is the filter of
the list by that predicate, hence a sublist). -/
theorem claim_C4 (freshId : String) (L : List Task) :
    tasksReducer freshId L .clearCompleted =
      L.filter (fun t => decide (t.completed = false)) ∧
    (tasksReducer freshId L .clearCompleted).Sublist L ∧
    ∀ t ∈ tasksReducer freshId L .clearCompleted, t.completed = false := by
  refine ⟨?_, List.filter_sublist L, ?_⟩
  · simp only [tasksReducer]
    apply List.filter_congr
    intro t _
    cases t.completed <;> rfl
  · intro t ht
    simp only [tasksReducer, List.mem_filter, Bool.not_eq_true'] at ht
    exact ht.2

/-- Claim C5: the reducer is total and deterministic — it is a function in
the embedding, with the `crypto.randomUUID()` result of the ADD branch made
an explicit input — and on an action whose tag is none of the four known
ones (the `default` branch) it returns the state unchanged. -/
theorem claim_C5 (freshId : String) (L : List Task) (a : Action) :
    (∃ r, tasksReducer freshId L a = r) ∧
    tasksReducer freshId L a = tasksReducer freshId L a ∧
    tasksReducer freshId L Action.unknown = L :=
  ⟨⟨_, rfl⟩, rfl, rfl⟩

/-- Claim C6: id uniqueness is an invariant.  Starting from a list with
pairwise-distinct ids, ADD with a fresh id appends that id and keeps the
ids distinct; TOGGLE leaves the id sequence unchanged; DELETE and
CLEAR_COMPLETED produce sublists (so every surviving task, id included, is
unchanged) with distinct ids. -/
theorem claim_C6 (L : List Task) (hnd : (L.map Task.id).Nodup) :
    (∀ freshId t, freshId ∉ L.map Task.id →
      ((tasksReducer freshId L (.add t)).map Task.id).Nodup ∧
      (tasksReducer freshId L (.add t)).map Task.id = L.map Task.id ++ [freshId]) ∧
    (∀ freshId i, ((tasksReducer freshId L (.toggle i)).map Task.id).Nodup ∧
      (tasksReducer freshId L (.toggle i)).map Task.id = L.map Task.id) ∧
    (∀ freshId i, ((tasksReducer freshId L (.delete i)).map Task.id).Nodup ∧
      (tasksReducer freshId L (.delete i)).Sublist L) ∧
    (∀ freshId, ((tasksReducer freshId L .clearCompleted).map Task.id).Nodup ∧
      (tasksReducer freshId L .clearCompleted).Sublist L) := by
  refine ⟨fun freshId t hfresh => ⟨?_, ?_⟩, fun freshId i => ⟨?_, toggle_map_id freshId i L⟩,
    fun freshId i => ⟨?_, List.filter_sublist L⟩, fun freshId => ⟨?_, List.filter_sublist L⟩⟩
  · simp [tasksReducer, List.nodup_append, hnd, hfresh]
  · simp [tasksReducer]
  · rw [toggle_map_id]
    exact hnd
  · exact ((List.filter_sublist L).map Task.id).nodup hnd
  · exact ((List.filter_sublist L).map Task.id).nodup hnd

/-- Witness for C6 at a concrete distinct-id list. -/
theorem claim_C6_witness :
    ((tasksReducer "c" ([⟨"a", "x", false⟩, ⟨"b", "y", true⟩] : List Task)
        (.add "t")).map Task.id).Nodup ∧
    (tasksReducer "c" ([⟨"a", "x", false⟩, ⟨"b", "y", true⟩] : List Task)
        (.add "t")).map Task.id =
      ([⟨"a", "x", false⟩, ⟨"b", "y", true⟩] : List Task).map Task.id ++ ["c"] :=
  (claim_C6 [⟨"a", "x", false⟩, ⟨"b", "y", true⟩] (by decide)).1 "c" "t" (by decide)

/-- Claim C10: on arbitrary lists, duplicates included, DELETE is exactly
the filter keeping the tasks whose id differs, and TOGGLE negates the
`completed` flag of every task whose id matches; on a list with a
duplicated id, one DELETE removes both copies and one TOGGLE flips both. -/
theorem claim_C10 (freshId i : String) (L : List Task) :
    tasksReducer freshId L (.delete i) = L.filter (fun t => decide (t.id ≠ i)) ∧
    (∀ j : Nat, (tasksReducer freshId L (.toggle i))[j]? =
      (L[j]?).map fun t => if t.id = i then ⟨t.id, t.text, !t.completed⟩ else t) ∧
    tasksReducer "z" ([⟨"a", "x", false⟩, ⟨"a", "y", true⟩] : List Task)
      (.delete "a") = [] ∧
    tasksReducer "z" ([⟨"a", "x", false⟩, ⟨"a", "y", false⟩] : List Task)
      (.toggle "a") = [⟨"a", "x", true⟩, ⟨"a", "y", true⟩] := by
  refine ⟨?_, ?_, by decide, by decide⟩
  · simp only [tasksReducer]
    apply List.filter_congr
    intro t _
    by_cases h : t.id = i <;> simp [h]
  · intro j
    simp only [tasksReducer, List.getElem?_map]

/-- Claim C7: round trip through the Persistence Adapter.  Serializing a
task list as the save path does and parsing the resulting string as the
load paths do — the generic hook as well as the component's inline
initializer — reproduces the same list: same ids, texts and completed
flags, in the same order. -/
theorem claim_C7 (L init : List Task) :
    parseTasks (stringifyTasks L) = some L ∧
    loadStored true (Except.ok (some (stringifyTasks L))) parseTasks init =
      ⟨L, false⟩ ∧
    todoInit true (Except.ok (some (stringifyTasks L))) = L := by
  have hrt := parseTasks_stringifyTasks L
  have hne : stringifyTasks L ≠ "" := by
    intro h
    have hdata := congrArg String.data h
    simp [stringifyTasks] at hdata
  refine ⟨hrt, ?_, ?_⟩
  · simp [loadStored, hne, hrt]
  · simp [todoInit, hne, hrt]

/-- Counterexample to Claim C8 as stated: when the storage area is
unavailable (non-browser execution, `typeof window === "undefined"`) the
load path returns the initial value silently, with no failure logged; the
same holds when no value is stored under the key. -/
theorem claim_C8_counterexample :
    (loadStored false (Except.error ()) parseTasks ([] : List Task)).logged = false ∧
    (loadStored true (Except.ok none) parseTasks ([] : List Task)).logged = false := by
  constructor <;> rfl

/-- Claim C8, amended: in all three cases — storage area unavailable, no
value stored, or unparseable stored string — loading returns the initial
value and never raises; the failure is logged exactly when reading or
parsing throws (in particular the stored text `not json` with initial
value `[]` yields `[]` and a logged parse failure), while an unavailable
storage area or an absent stored value falls back silently. -/
theorem claim_C8 {T : Type} (parse : String → Option T) (v : T) :
    (∀ g, loadStored false g parse v = ⟨v, false⟩) ∧
    loadStored true (Except.error ()) parse v = ⟨v, true⟩ ∧
    loadStored true (Except.ok none) parse v = ⟨v, false⟩ ∧
    (∀ s, s ≠ "" → parse s = none →
      loadStored true (Except.ok (some s)) parse v = ⟨v, true⟩) ∧
    loadStored true (Except.ok (some "not json")) parseTasks ([] : List Task) =
      ⟨[], true⟩ := by
  refine ⟨fun g => rfl, rfl, rfl, fun s hs hp => ?_, ?_⟩
  · simp [loadStored, hs, hp]
  · have hp : parseTasks "not json" = none := by decide
    simp [loadStored, hp, show ("not json" : String) ≠ "" by decide]

/-- Witness for C8 (amended) at a concrete unparseable string. -/
theorem claim_C8_witness :
    loadStored true (Except.ok (some "xyz")) parseTasks ([] : List Task) =
      ⟨[], true⟩ :=
  (claim_C8 parseTasks ([] : List Task)).2.2.2.1 "xyz" (by decide) (by decide)

/-- Claim C9: the save path never raises, and a failing write is logged and
swallowed while the in-memory current value is left exactly as it was — the
effect writes nothing and performs no rollback. -/
theorem claim_C9 {T : Type} (serialize : T → String) (v : T) :
    (∀ writeOk : Bool, (saveStored true writeOk serialize v).value = v) ∧
    saveStored true false serialize v = ⟨v, none, true⟩ := by
  constructor
  · intro writeOk
    cases writeOk <;> rfl
  · rfl

end Todo
